import Mathlib

/-!
Verification development for the lexec-go library: a wrapper around external
process execution that duplicates a child process's stdout and stderr into a
combined in-memory event log, a caller-provided writer, and a line-oriented
logging callback, and that classifies the process's exit status.

The Lean definitions below are shallow embeddings of the Go source:
`streams.go` (the combined-stream recorder `streamWriter`), `loggedexec.go`
(execution controller: `New`, `Start`, `Wait`, `Run`, `Output`,
`setupStreams`/`loggerize`), `format.go` (`FormatShellCommand`) and
`error.go` (`ExitStatusError`, `IsExitStatus`, `GetExitStatus`).  Byte slices
are lists of naturals, Go strings are Lean strings (converted to byte lists
where the source converts), and mutexes are modelled by treating each guarded
operation as one atomic step of a state-transition function.
-/

namespace Lexec

/-- A byte of process output. -/
abbrev Byte := Nat

/-- Type `Stream` from streams.go: identifier of the origin of a record.  The Go
source declares it as a string type with four constants: `stdout`, `stderr`,
`launch` and `finish`. -/
inductive Stream where
  | stdout
  | stderr
  | launch
  | finish
deriving DecidableEq, Repr, BEq

/-- The string value of a `Stream` constant as declared in streams.go. -/
def Stream.toGoString : Stream → String
  | .stdout => "stdout"
  | .stderr => "stderr"
  | .launch => "launch"
  | .finish => "finish"

/-- Type `StreamData` from streams.go: one recorded event of the combined log,
holding the originating stream and the bytes written. -/
structure StreamData where
  stream : Stream
  data : List Byte
deriving DecidableEq, Repr

/-- Bytes of an ASCII string, as Go `[]byte(s)` for ASCII content. -/
def bytesOfStr (s : String) : List Byte := s.toList.map Char.toNat

/-- String view of a byte list, as Go `string(data)` for ASCII content. -/
def strOfBytes (l : List Byte) : String := String.mk (l.map Char.ofNat)

/-- Function `bytes.TrimRight(data, "\n")` from the Go standard library as used in
`loggerize` (loggedexec.go): removes every trailing newline byte. -/
def trimRightNl (l : List Byte) : List Byte :=
  (l.reverse.dropWhile (fun b => b == 10)).reverse

/-- Modelled from the spec: the line scanner of the line-buffered relay
(external dependency `lineflushwriter-go`, not part of this repository).
Splits a buffer into the list of complete newline-terminated lines (each
including its terminator, emitted one record per line) and the unterminated
remainder that stays buffered. -/
def splitLines : List Byte → List (List Byte) × List Byte
  | [] => ([], [])
  | b :: rest =>
    let (ls, rem) := splitLines rest
    if b == 10 then
      ([10] :: ls, rem)
    else
      match ls with
      | [] => ([], b :: rem)
      | l :: ls2 => ((b :: l) :: ls2, rem)

/-- Modelled from the spec: `Close` of the line-buffered relay constructed
with `ensureNewlines = true` (external dependency `lineflushwriter-go`).  It
flushes the buffered remainder only if it is non-empty, appending the missing
terminator. -/
def lineFlushClose (pending : List Byte) : Option (List Byte) :=
  if pending.isEmpty then none
  else if pending.getLast? == some 10 then some pending
  else some (pending ++ [10])

/-- State of the per-stream fan-out pipeline built by
`setupStreams`/`loggerize` in loggedexec.go: the shared combined log, the
caller-provided writer's accumulated bytes, the line relay's pending buffer
and the records delivered to the logging callback (already trimmed of
trailing newlines by the callback in `loggerize`). -/
structure PipelineState where
  combined : List StreamData
  output : List Byte
  pending : List Byte
  records : List (List Byte)
deriving DecidableEq, Repr

/-- One write of process output through the `io.MultiWriter` built by
`loggerize` (loggedexec.go): the combined-stream recorder appends a copy of
the data, the caller-provided writer receives the data unchanged, and the
line relay buffers the data, emitting one callback record per complete line
with trailing newlines trimmed by the callback. -/
def loggerizeWrite (stream : Stream) (st : PipelineState) (data : List Byte) :
    PipelineState :=
  let fed := splitLines (st.pending ++ data)
  { combined := st.combined ++ [⟨stream, data⟩]
    output := st.output ++ data
    pending := fed.2
    records := st.records ++ fed.1.map trimRightNl }

/-- Runs a sequence of process writes through one stream's fan-out pipeline. -/
def runPipeline (stream : Stream) : PipelineState → List (List Byte) → PipelineState
  | st, [] => st
  | st, d :: rest => runPipeline stream (loggerizeWrite stream st d) rest

/-!  Heap model of Go byte slices, used to express the aliasing behaviour of
`streamWriter.Write` (streams.go): a slice is an address into a store of byte
lists, the writer's input buffer may be overwritten by its owner after a call
returns, and `make` + `copy` allocates a fresh address holding a snapshot of
the input. -/

/-- A Go byte slice, modelled as an address into a `Store`. -/
structure Slice where
  addr : Nat
deriving DecidableEq, Repr

/-- A store of byte-slice contents: the contents at each address, plus the
next fresh address. -/
structure Store where
  mem : Nat → List Byte
  next : Nat

/-- Reads the contents of a slice. -/
def Store.read (st : Store) (p : Slice) : List Byte := st.mem p.addr

/-- Overwrites the contents of a slice in place (the slice's owner reusing
its buffer). -/
def Store.writeMem (st : Store) (p : Slice) (v : List Byte) : Store :=
  { mem := fun a => if a = p.addr then v else st.mem a, next := st.next }

/-- Allocation `make([]byte, len(v))` followed by `copy`: allocates a fresh slice
holding the given contents. -/
def Store.alloc (st : Store) (v : List Byte) : Store × Slice :=
  ({ mem := fun a => if a = st.next then v else st.mem a, next := st.next + 1 },
   ⟨st.next⟩)

/-- A `StreamData` event as held in the combined log under the heap model:
the stream tag together with the address of the payload slice. -/
structure StreamDataRef where
  stream : Stream
  addr : Nat
deriving DecidableEq, Repr

/-- Method `streamWriter.Write` from streams.go: under the log's mutex (one atomic
step here), copies the input into a freshly allocated slice (`indirected`)
and appends a `StreamData` event referencing the copy to the shared log,
returning the length written and a nil error. -/
def streamWriterWrite (st : Store) (output : List StreamDataRef)
    (stream : Stream) (data : Slice) :
    Store × List StreamDataRef × Nat × Option String :=
  let contents := st.read data
  let (st2, indirected) := st.alloc contents
  (st2, output ++ [⟨stream, indirected.addr⟩], contents.length, none)

/-- Two concurrent stream pumps sharing one combined log: each list element
is one pump step, in global mutex-arrival order.  The pump for a stream
first refills its own transfer buffer (`p1` for stdout, `p2` for stderr)
with the bytes read from the process, then calls `streamWriter.Write` on it. -/
def runWrites (p1 p2 : Slice) :
    Store → List StreamDataRef → List (Stream × List Byte) →
    Store × List StreamDataRef
  | st, log, [] => (st, log)
  | st, log, (s, d) :: rest =>
    let p := if s = Stream.stdout then p1 else p2
    let st1 := st.writeMem p d
    let (st2, log2, _, _) := streamWriterWrite st1 log s p
    runWrites p1 p2 st2 log2 rest

/-- An interleaving of the stdout pump's writes and the stderr pump's writes
into one globally ordered sequence, as imposed by the combined log's mutex. -/
inductive Interleaving :
    List (Stream × List Byte) → List (List Byte) → List (List Byte) → Prop where
  | nil : Interleaving [] [] []
  | left {seq w1 w2 d} : Interleaving seq w1 w2 →
      Interleaving ((Stream.stdout, d) :: seq) (d :: w1) w2
  | right {seq w1 w2 d} : Interleaving seq w1 w2 →
      Interleaving ((Stream.stderr, d) :: seq) w1 (d :: w2)

/-!  Error values and the execution controller (loggedexec.go, error.go). -/

/-- Go error values as produced by this package: a plain error (such as the
operating system's wait error or an `exec.ExitError`, identified by its
message), a `karma` context error (a list of key/value descriptions, a
message and an optional wrapped reason), and the `ExitStatusError` struct of
error.go (an embedded karma error plus the numeric exit status). -/
inductive GoError where
  | plain (message : String)
  | karma (context : List (String × String)) (message : String)
      (reason : Option GoError)
  | exitStatusErr (inner : GoError) (exitStatus : Int)

/-- Function `IsExitStatus` from error.go: true exactly when the dynamic type of the
error is `ExitStatusError`. -/
def IsExitStatus : GoError → Bool
  | .exitStatusErr _ _ => true
  | _ => false

/-- Function `GetExitStatus` from error.go: the exit code carried by an
`ExitStatusError`, and `0` for every other error. -/
def GetExitStatus : GoError → Int
  | .exitStatusErr _ code => code
  | _ => 0

/-- Modelled from the spec: the terminal-color-code stripper (external
dependency `stripansi`, not part of this repository).  The flag is true
while inside a CSI escape sequence, which ends at its final byte
(range 0x40 to 0x7e). -/
def stripAnsiAux : Bool → List Byte → List Byte
  | _, [] => []
  | true, b :: rest =>
    if 64 ≤ b && b ≤ 126 then stripAnsiAux false rest else stripAnsiAux true rest
  | false, 27 :: 91 :: rest => stripAnsiAux true rest
  | false, b :: rest => b :: stripAnsiAux false rest

/-- Function `stripansi.Strip` over bytes: removes CSI escape sequences. -/
def stripAnsi (l : List Byte) : List Byte := stripAnsiAux false l

/-- Whether a byte is ASCII whitespace in the sense of Go's
`strings.TrimSpace`. -/
def isGoSpace (b : Byte) : Bool :=
  b == 32 || b == 9 || b == 10 || b == 13 || b == 11 || b == 12

/-- Function `strings.TrimSpace` over bytes (ASCII whitespace). -/
def trimSpace (l : List Byte) : List Byte :=
  ((l.dropWhile isGoSpace).reverse.dropWhile isGoSpace).reverse

/-- Go `%q` quoting of one string, for strings whose characters need no
escaping beyond quotes and backslashes. -/
def goQuote (s : String) : String :=
  "\"" ++ String.mk (s.toList.flatMap
    (fun c => if c.toNat == 34 || c.toNat == 92 then [Char.ofNat 92, c] else [c]))
    ++ "\""

/-- Method `Execution.String` from loggedexec.go: `fmt.Sprintf` with verb `%q`
applied to the argument vector. -/
def ExecutionString (args : List String) : String :=
  "[" ++ String.intercalate " " (args.map goQuote) ++ "]"

/-- Outcome of the underlying `command.Wait()` call, as the controller
distinguishes the cases in `Execution.Wait` (loggedexec.go):  a nil error;
an `exec.ExitError` whose `Sys()` is a `syscall.WaitStatus` carrying the
exit code; an `exec.ExitError` whose `Sys()` is not a `WaitStatus`; or any
other wait error. -/
inductive WaitOutcome where
  | success
  | exitError (status : Int)
  | exitErrorNoStatus (msg : String)
  | waitFailure (msg : String)

/-- One observable action of the controller during `Wait`: running the
closer (which flushes both line relays), or invoking the logger with a
record. -/
inductive WaitEvent where
  | closerRun
  | logged (stream : Stream) (data : List Byte)
deriving DecidableEq, Repr, BEq

/-- Method `Execution.Wait` from loggedexec.go, returning the error result and the
ordered observable actions.  On a non-`ExitError` failure it wraps the error
with the command description; on an `ExitError` without a `WaitStatus` it
wraps with a different message; on an exit with a non-zero code it emits a
Finish record with the code, then builds the diagnostic from the combined
log (concatenated, ANSI-stripped and space-trimmed) when the log is
non-empty, and returns a karma context error describing the command and the
code; on success it runs the closer if set, then emits a Finish record with
exit code 0 and returns nil. -/
def ExecutionWait (outcome : WaitOutcome) (args : List String)
    (combined : List StreamData) (hasLogger hasCloser : Bool) :
    Option GoError × List WaitEvent :=
  match outcome with
  | .waitFailure msg =>
    (some (.karma [("command", ExecutionString args)]
      "unable to start command" (some (.plain msg))), [])
  | .exitErrorNoStatus msg =>
    (some (.karma [("command", ExecutionString args)]
      "unable to wait command execution" (some (.plain msg))), [])
  | .exitError code =>
    let events :=
      if hasLogger then
        [WaitEvent.logged .finish (bytesOfStr ("exit " ++ toString code))]
      else []
    let output := combined.map (fun d => d.data)
    let exitErr : GoError := .plain ("exit status " ++ toString code)
    let wrapped : GoError :=
      if output.length > 0 then
        .karma [] ("exit status " ++ toString code)
          (some (.plain (strOfBytes (trimSpace (stripAnsi output.flatten)))))
      else exitErr
    (some (.karma [("command", ExecutionString args), ("code", toString code)]
      "execution completed with non-zero exit code" (some wrapped)), events)
  | .success =>
    (none,
      (if hasCloser then [WaitEvent.closerRun] else []) ++
      (if hasLogger then [WaitEvent.logged .finish (bytesOfStr "exit 0")] else []))

/-- Outcome of `Execution.Start` internals: success, a stdin-pipe failure
inside `setupStreams`, or a failure of the underlying `command.Start()`. -/
inductive StartOutcome where
  | ok
  | stdinPipeFail (msg : String)
  | startFail (msg : String)

/-- Method `Execution.Start` from loggedexec.go: emits a Launch record when a
logger is set, then wires the streams (a stdin-pipe failure is wrapped and
returned), then starts the process (a start failure is wrapped and
returned). -/
def ExecutionStart (outcome : StartOutcome) (args : List String)
    (hasLogger : Bool) : Option GoError × List WaitEvent :=
  let launch :=
    if hasLogger then [WaitEvent.logged .launch (bytesOfStr "launch")] else []
  match outcome with
  | .stdinPipeFail msg =>
    (some (.karma []
      ("can\x27t get stdin pipe from command: " ++ ExecutionString args)
      (some (.plain msg))), launch)
  | .startFail msg =>
    (some (.karma [] ("can\x27t start command: " ++ ExecutionString args)
      (some (.plain msg))), launch)
  | .ok => (none, launch)

/-- Method `Execution.Run` from loggedexec.go: `Start`, and if it returned nil,
`Wait`.  The boolean records whether `Wait` was invoked. -/
def ExecutionRun (so : StartOutcome) (wo : WaitOutcome) (args : List String)
    (combined : List StreamData) (hasLogger hasCloser : Bool) :
    (Option GoError × List WaitEvent) × Bool :=
  let started := ExecutionStart so args hasLogger
  match started.1 with
  | some e => ((some e, started.2), false)
  | none =>
    let waited := ExecutionWait wo args combined hasLogger hasCloser
    ((waited.1, started.2 ++ waited.2), true)

/-- Method `Execution.Output` from loggedexec.go: runs the command, then drains the
stdout capture target and the stderr capture target.  A failed drain returns
a wrapped read error (and nil outputs); otherwise both captured byte slices
are returned together with `Run`'s result, whatever it was. -/
def ExecutionOutput (runResult : Option GoError) (args : List String)
    (stdoutRead stderrRead : Except String (List Byte)) :
    Option (List Byte) × Option (List Byte) × Option GoError :=
  match stdoutRead with
  | .error e =>
    (none, none, some (.karma []
      ("can\x27t read execution stdout: " ++ ExecutionString args)
      (some (.plain e))))
  | .ok so =>
    match stderrRead with
    | .error e =>
      (none, none, some (.karma []
        ("can\x27t read execution stderr: " ++ ExecutionString args)
        (some (.plain e))))
    | .ok se => (some so, some se, runResult)

/-!  Shell-safe formatter (format.go). -/

/-- Whether a character matches the regular expression
`[$` ++ "backtick" ++ `"!'\s]` (`reSpecialChars` in format.go); Go's `\s`
class is space, tab, newline, form feed and carriage return.  Character
codes: 36 `$`, 96 backtick, 34 double quote, 33 `!`, 39 single quote. -/
def reSpecialCharsMatch (c : Char) : Bool :=
  c.toNat == 36 || c.toNat == 96 || c.toNat == 34 || c.toNat == 33 ||
  c.toNat == 39 || c.toNat == 32 || c.toNat == 9 || c.toNat == 10 ||
  c.toNat == 12 || c.toNat == 13

/-- Whether a character matches `reSpecialCharsEscape` in format.go: one of
`$`, backtick, `"`, `!`. -/
def reSpecialCharsEscapeMatch (c : Char) : Bool :=
  c.toNat == 36 || c.toNat == 96 || c.toNat == 34 || c.toNat == 33

/-- Replacement `reSpecialCharsEscape.ReplaceAllString(arg, "\$0")` from format.go:
prefixes every occurrence of an escapable character with a backslash. -/
def escapeSpecialChars (arg : String) : String :=
  String.mk (arg.toList.flatMap
    (fun c => if reSpecialCharsEscapeMatch c then [Char.ofNat 92, c] else [c]))

/-- Function `FormatShellCommand` from format.go: each argument matching
`reSpecialChars` is escaped and wrapped in double quotes, the others are
kept as they are, and the results are joined with single spaces. -/
def FormatShellCommand (command : List String) : String :=
  String.intercalate " "
    (command.map (fun arg =>
      if arg.toList.any reSpecialCharsMatch then
        "\"" ++ escapeSpecialChars arg ++ "\""
      else arg))

/-- The claim's description of `FormatShellCommand`, stated independently:
arguments joined by single spaces, where exactly the arguments containing
whitespace or one of the characters `$`, backtick, `"`, `!`, `'` are wrapped
in double quotes with each occurrence of `$`, backtick, `"`, `!` prefixed by
a backslash, and all other arguments unchanged. -/
def formatShellCommandSpec (command : List String) : String :=
  String.intercalate " "
    (command.map (fun arg =>
      if ∃ c ∈ arg.toList,
          c.toNat ∈ ([9, 10, 12, 13, 32] : List Nat) ∨
          c.toNat ∈ ([36, 96, 34, 33, 39] : List Nat) then
        "\"" ++ String.mk (arg.toList.flatMap
          (fun c =>
            if c.toNat ∈ ([36, 96, 34, 33] : List Nat) then [Char.ofNat 92, c]
            else [c])) ++ "\""
      else arg))

/-!  Construction and the optional logger (loggedexec.go: `Loggerf`, `New`)
together with a whole-execution observation function used to compare runs. -/

/-- A logger callback, observed by the list of lines it hands to its
underlying sink for one record. -/
def Logger := List String → Stream → List Byte → List String

/-- The format applied by `Loggerf` (loggedexec.go) before invoking the
wrapped printf-style function: Launch records show the shell-formatted
command, Finish records append the payload, stream records show the raw
payload.  All four stream names are six characters, so the `%-6s` padding
adds nothing. -/
def formatLoggerf (args : List String) (stream : Stream) (data : List Byte) :
    String :=
  match stream with
  | .launch => stream.toGoString ++ " | " ++ FormatShellCommand args
  | .finish =>
    stream.toGoString ++ " | " ++ FormatShellCommand args ++ " -> " ++
      strOfBytes data
  | _ => stream.toGoString ++ " |  " ++ strOfBytes data

/-- Function `Loggerf` from loggedexec.go: adapts a printf-style function (observed
by the lines it emits for one formatted string) into a `Logger`. -/
def Loggerf (base : String → List String) : Logger :=
  fun args stream data => base (formatLoggerf args stream data)

/-- The printf-style function `func(string, ...interface\x7b\x7d) \x7b\x7d`
substituted by `New` for a nil logger: it does nothing. -/
def noopBase : String → List String := fun _ => []

/-- The `Execution` fields relevant to construction: the stored logger (an
optional function field in Go) and the combined log. -/
structure ExecutionModel where
  logger : Option Logger
  combinedStreams : List StreamData

/-- Function `New` from loggedexec.go: when the supplied logger is nil it is replaced
with `Loggerf` of a do-nothing function, and the execution is created with
internal capture buffers and an empty combined log. -/
def New (logger : Option Logger) : ExecutionModel :=
  { logger := some (match logger with
      | none => Loggerf noopBase
      | some l => l)
    combinedStreams := [] }

/-- The logger-independent observation of one whole execution: the final
error, the records handed to the logger in order, the combined log, and the
bytes reaching the stdout and stderr capture targets. -/
structure RunCore where
  result : Option GoError
  records : List (Stream × List Byte)
  combined : List StreamData
  stdoutData : List Byte
  stderrData : List Byte

/-- The Finish record `Wait` emits for an outcome, if any. -/
def waitFinishRecords (outcome : WaitOutcome) (hasLogger : Bool) :
    List (Stream × List Byte) :=
  match outcome with
  | .success => if hasLogger then [(.finish, bytesOfStr "exit 0")] else []
  | .exitError code =>
    if hasLogger then [(.finish, bytesOfStr ("exit " ++ toString code))] else []
  | _ => []

/-- The records emitted when the closer flushes both line relays
(`Execution.closer` in `setupStreams`): each relay's non-empty remainder is
flushed with its terminator ensured and reaches the logger trimmed. -/
def closerRecords (outPending errPending : List Byte) :
    List (Stream × List Byte) :=
  (match lineFlushClose outPending with
   | some l => [((Stream.stdout : Stream), trimRightNl l)]
   | none => []) ++
  (match lineFlushClose errPending with
   | some l => [((Stream.stderr : Stream), trimRightNl l)]
   | none => [])

/-- One whole execution, observed independently of the logger's own output:
`Start` (Launch record, stream wiring per the nil-ness of the logger, process
start), the two stream pipelines consuming the process's writes, and `Wait`
(closer and Finish record on success, error classification otherwise).  With
a nil logger `setupStreams` wires the capture targets directly, so nothing
is recorded or relayed. -/
def runCore (hasLogger : Bool) (args : List String) (startO : StartOutcome)
    (stdoutWrites stderrWrites : List (List Byte)) (waitO : WaitOutcome) :
    RunCore :=
  let launchRecs :=
    if hasLogger then [((Stream.launch : Stream), bytesOfStr "launch")] else []
  match startO with
  | .stdinPipeFail msg =>
    { result := (ExecutionStart (.stdinPipeFail msg) args hasLogger).1
      records := launchRecs, combined := []
      stdoutData := [], stderrData := [] }
  | .startFail msg =>
    { result := (ExecutionStart (.startFail msg) args hasLogger).1
      records := launchRecs, combined := []
      stdoutData := [], stderrData := [] }
  | .ok =>
    if hasLogger then
      let outSt := runPipeline Stream.stdout ⟨[], [], [], []⟩ stdoutWrites
      let errSt := runPipeline Stream.stderr ⟨[], [], [], []⟩ stderrWrites
      let combined := outSt.combined ++ errSt.combined
      let streamRecs :=
        outSt.records.map (fun r => ((Stream.stdout : Stream), r)) ++
        errSt.records.map (fun r => ((Stream.stderr : Stream), r))
      let closeRecs :=
        match waitO with
        | .success => closerRecords outSt.pending errSt.pending
        | _ => []
      { result := (ExecutionWait waitO args combined true true).1
        records := launchRecs ++ streamRecs ++ closeRecs ++
          waitFinishRecords waitO true
        combined := combined
        stdoutData := outSt.output, stderrData := errSt.output }
    else
      { result := (ExecutionWait waitO args [] false false).1
        records := launchRecs, combined := []
        stdoutData := stdoutWrites.flatten
        stderrData := stderrWrites.flatten }

/-- The lines the logger's underlying sink receives for a record list. -/
def sinkOf (logger : Option Logger) (args : List String)
    (records : List (Stream × List Byte)) : List String :=
  match logger with
  | none => []
  | some L => (records.map (fun r => L args r.1 r.2)).flatten

/-- A whole execution including the logger's sink output. -/
structure RunObs where
  core : RunCore
  sink : List String

/-- One whole execution as observed including the logger's own output. -/
def runExecution (logger : Option Logger) (args : List String)
    (startO : StartOutcome) (stdoutWrites stderrWrites : List (List Byte))
    (waitO : WaitOutcome) : RunObs :=
  let core := runCore logger.isSome args startO stdoutWrites stderrWrites waitO
  ⟨core, sinkOf logger args core.records⟩

/-!  Lemmas about the line relay and the per-stream pipeline. -/

/-- Dropping leading newline bytes from a newline-free list changes
nothing. -/
theorem dropWhile_nl_of_not_mem (xs : List Byte) (h : ∀ x ∈ xs, x ≠ 10) :
    xs.dropWhile (fun b => b == 10) = xs := by
  cases xs with
  | nil => rfl
  | cons a as =>
    have ha : a ≠ 10 := h a (List.mem_cons_self a as)
    simp [List.dropWhile_cons, ha]

/-- Trimming the trailing newline from a newline-free line with one
terminator recovers the line. -/
theorem trimRightNl_line (l : List Byte) (h : (10 : Byte) ∉ l) :
    trimRightNl (l ++ [10]) = l := by
  unfold trimRightNl
  rw [List.reverse_append]
  simp only [List.reverse_cons, List.reverse_nil, List.nil_append,
    List.singleton_append, List.dropWhile_cons]
  norm_num
  rw [dropWhile_nl_of_not_mem]
  · exact List.reverse_reverse l
  · intro x hx hx10
    exact h (hx10 ▸ List.mem_reverse.mp hx)

/-- Feeding one complete newline-free line with its terminator yields
exactly that line and an empty remainder. -/
theorem splitLines_line (l : List Byte) (h : (10 : Byte) ∉ l) :
    splitLines (l ++ [10]) = ([l ++ [10]], []) := by
  induction l with
  | nil => rfl
  | cons a as ih =>
    have ha : a ≠ 10 := fun hc => h (hc ▸ List.mem_cons_self a as)
    have has : (10 : Byte) ∉ as := fun hc => h (List.mem_cons_of_mem a hc)
    simp only [List.cons_append, splitLines, ih has]
    simp [ha, ih has]

/-- Running a sequence of newline-terminated single-line writes through one
stream's fan-out pipeline: every write is appended verbatim to the combined
log and the caller-provided writer, each line reaches the callback trimmed,
and no bytes stay pending. -/
theorem runPipeline_terminated (s : Stream) :
    ∀ (lines : List (List Byte)) (st : PipelineState),
      (∀ l ∈ lines, (10 : Byte) ∉ l) → st.pending = [] →
      runPipeline s st (lines.map (fun l => l ++ [10])) =
        ⟨st.combined ++ lines.map (fun l => ⟨s, l ++ [10]⟩),
         st.output ++ (lines.map (fun l => l ++ [10])).flatten,
         [],
         st.records ++ lines⟩ := by
  intro lines
  induction lines with
  | nil =>
    intro st _ hp
    cases st with
    | mk c o p r => simp_all [runPipeline]
  | cons l rest ih =>
    intro st h hp
    have hl : (10 : Byte) ∉ l := h l (List.mem_cons_self l rest)
    have hrest : ∀ x ∈ rest, (10 : Byte) ∉ x :=
      fun x hx => h x (List.mem_cons_of_mem l hx)
    simp only [List.map_cons, runPipeline]
    rw [ih (loggerizeWrite s st (l ++ [10])) hrest
      (by simp [loggerizeWrite, hp, splitLines_line l hl])]
    simp [loggerizeWrite, hp, splitLines_line l hl, trimRightNl_line l hl]

/-- C1: when the child process writes newline-terminated lines to one
stream, the logging callback receives one record per line, in order, with
the trailing newline trimmed, while the combined log's events for that
stream and the caller-provided writer receive byte-identical untrimmed data
whose concatenation equals exactly what the process wrote. -/
theorem c1_line_records_and_untrimmed_copies (s : Stream)
    (lines : List (List Byte)) (h : ∀ l ∈ lines, (10 : Byte) ∉ l) :
    (runPipeline s ⟨[], [], [], []⟩ (lines.map (fun l => l ++ [10]))).records
        = lines ∧
    (runPipeline s ⟨[], [], [], []⟩ (lines.map (fun l => l ++ [10]))).combined
        = lines.map (fun l => StreamData.mk s (l ++ [10])) ∧
    ((runPipeline s ⟨[], [], [], []⟩
        (lines.map (fun l => l ++ [10]))).combined.map StreamData.data).flatten
        = (lines.map (fun l => l ++ [10])).flatten ∧
    (runPipeline s ⟨[], [], [], []⟩ (lines.map (fun l => l ++ [10]))).output
        = (lines.map (fun l => l ++ [10])).flatten := by
  rw [runPipeline_terminated s lines ⟨[], [], [], []⟩ h rfl]
  refine ⟨rfl, by simp, ?_, by simp⟩
  simp only [List.nil_append, List.map_map]
  rfl

/-- Witness for C1 at the spec's example: the process writes
`"1\n"`, `"2\n"`, `"3\n"`; the callback records are `"1"`, `"2"`, `"3"` in
order and the combined log holds the untrimmed writes. -/
theorem c1_line_records_and_untrimmed_copies_witness :
    (∀ l ∈ [[49], [50], [51]], (10 : Byte) ∉ l) ∧
    ((runPipeline Stream.stdout ⟨[], [], [], []⟩
        ([[49], [50], [51]].map (fun l => l ++ [10]))).records
        = [[49], [50], [51]] ∧
     (runPipeline Stream.stdout ⟨[], [], [], []⟩
        ([[49], [50], [51]].map (fun l => l ++ [10]))).combined
        = [[49], [50], [51]].map (fun l => StreamData.mk Stream.stdout (l ++ [10])) ∧
     ((runPipeline Stream.stdout ⟨[], [], [], []⟩
        ([[49], [50], [51]].map (fun l => l ++ [10]))).combined.map
          StreamData.data).flatten
        = ([[49], [50], [51]].map (fun l => l ++ [10])).flatten ∧
     (runPipeline Stream.stdout ⟨[], [], [], []⟩
        ([[49], [50], [51]].map (fun l => l ++ [10]))).output
        = ([[49], [50], [51]].map (fun l => l ++ [10])).flatten) :=
  ⟨by decide,
   c1_line_records_and_untrimmed_copies Stream.stdout [[49], [50], [51]]
     (by decide)⟩

/-!  Lemmas about the heap model of the combined-stream recorder. -/

/-- Invariant-carrying characterization of a pump sequence through
`streamWriter.Write`: reading every recorded event's payload in the final
store recovers, in order, exactly the writes as made, and every recorded
payload lives at an address distinct from both pump buffers. -/
theorem runWrites_spec (p1 p2 : Slice) :
    ∀ (seq : List (Stream × List Byte)) (st : Store) (log : List StreamDataRef),
      p1.addr < st.next → p2.addr < st.next →
      (∀ e ∈ log, e.addr < st.next ∧ e.addr ≠ p1.addr ∧ e.addr ≠ p2.addr) →
      ((runWrites p1 p2 st log seq).2.map
          (fun e => (e.stream, (runWrites p1 p2 st log seq).1.mem e.addr)))
        = log.map (fun e => (e.stream, st.mem e.addr)) ++ seq ∧
      (∀ e ∈ (runWrites p1 p2 st log seq).2,
          e.addr < (runWrites p1 p2 st log seq).1.next ∧
          e.addr ≠ p1.addr ∧ e.addr ≠ p2.addr) := by
  intro seq
  induction seq with
  | nil =>
    intro st log _ _ hlog
    exact ⟨by simp [runWrites], hlog⟩
  | cons x rest ih =>
    obtain ⟨s, d⟩ := x
    intro st log h1 h2 hlog
    have hstep : runWrites p1 p2 st log ((s, d) :: rest) =
        runWrites p1 p2
          ⟨fun a =>
            if a = st.next then d
            else if a = (if s = Stream.stdout then p1 else p2).addr then d
            else st.mem a,
           st.next + 1⟩
          (log ++ [⟨s, st.next⟩]) rest := by
      simp only [runWrites, streamWriterWrite, Store.writeMem, Store.alloc,
        Store.read]
      simp
    set p : Slice := if s = Stream.stdout then p1 else p2 with hp
    have hpa : p.addr < st.next := by
      rw [hp]; by_cases hs : s = Stream.stdout <;> simp [hs, h1, h2]
    have h1s : p1.addr < st.next + 1 := Nat.lt_succ_of_lt h1
    have h2s : p2.addr < st.next + 1 := Nat.lt_succ_of_lt h2
    have hlog2 : ∀ e ∈ log ++ [(⟨s, st.next⟩ : StreamDataRef)],
        e.addr < st.next + 1 ∧ e.addr ≠ p1.addr ∧ e.addr ≠ p2.addr := by
      intro e he
      rcases List.mem_append.mp he with hin | hnew
      · exact ⟨Nat.lt_succ_of_lt (hlog e hin).1, (hlog e hin).2.1,
          (hlog e hin).2.2⟩
      · have : e = ⟨s, st.next⟩ := List.mem_singleton.mp hnew
        subst this
        exact ⟨Nat.lt_succ_self _, fun hc => Nat.lt_irrefl _ (hc ▸ h1),
          fun hc => Nat.lt_irrefl _ (hc ▸ h2)⟩
    obtain ⟨ihmap, ihinv⟩ := ih
      ⟨fun a => if a = st.next then d else if a = p.addr then d else st.mem a,
       st.next + 1⟩
      (log ++ [⟨s, st.next⟩]) h1s h2s hlog2
    rw [hstep]
    refine ⟨?_, ihinv⟩
    rw [ihmap, List.map_append]
    have hmap : log.map (fun e =>
        (e.stream,
          (if e.addr = st.next then d
           else if e.addr = p.addr then d else st.mem e.addr)))
        = log.map (fun e => (e.stream, st.mem e.addr)) := by
      refine List.map_congr_left (fun e he => ?_)
      have h3 := hlog e he
      have hne1 : e.addr ≠ st.next := Nat.ne_of_lt h3.1
      have hnep : e.addr ≠ p.addr := by
        rw [hp]; by_cases hs : s = Stream.stdout <;>
          simp [hs, h3.2.1, h3.2.2]
      simp [hne1, hnep]
    simp only [List.map_cons, List.map_nil] at *
    rw [hmap]
    simp

/-- C4: for all concurrent writes from the two distinct streams to the
shared combined log, the total number of recorded events equals the sum of
the individual write counts, and every event's payload, read after the whole
run, matches byte-for-byte the write that produced it. -/
theorem c4_no_event_loss (st : Store) (p1 p2 : Slice)
    (seq : List (Stream × List Byte)) (w1 w2 : List (List Byte))
    (hint : Interleaving seq w1 w2)
    (h1 : p1.addr < st.next) (h2 : p2.addr < st.next) :
    (runWrites p1 p2 st [] seq).2.length = w1.length + w2.length ∧
    (runWrites p1 p2 st [] seq).2.filterMap
        (fun e =>
          if e.stream = Stream.stdout then
            some ((runWrites p1 p2 st [] seq).1.mem e.addr)
          else none) = w1 ∧
    (runWrites p1 p2 st [] seq).2.filterMap
        (fun e =>
          if e.stream = Stream.stderr then
            some ((runWrites p1 p2 st [] seq).1.mem e.addr)
          else none) = w2 := by
  obtain ⟨hmap, -⟩ := runWrites_spec p1 p2 seq st [] h1 h2 (by simp)
  simp only [List.map_nil, List.nil_append] at hmap
  have hlen : (runWrites p1 p2 st [] seq).2.length = seq.length := by
    have := congrArg List.length hmap
    simpa using this
  have hseqlen : seq.length = w1.length + w2.length := by
    clear hmap hlen
    induction hint with
    | nil => rfl
    | left _ ih => simp [ih]; omega
    | right _ ih => simp [ih]; omega
  have hout : ∀ (t : Stream),
      (runWrites p1 p2 st [] seq).2.filterMap
        (fun e =>
          if e.stream = t then
            some ((runWrites p1 p2 st [] seq).1.mem e.addr)
          else none)
      = seq.filterMap (fun x => if x.1 = t then some x.2 else none) := by
    intro t
    have := congrArg
      (List.filterMap (fun x : Stream × List Byte =>
        if x.1 = t then some x.2 else none)) hmap
    rw [List.filterMap_map] at this
    exact this
  refine ⟨hlen.trans hseqlen, ?_, ?_⟩
  · rw [hout Stream.stdout]
    clear hmap hlen hout hseqlen
    induction hint with
    | nil => rfl
    | left _ ih => simpa using ih
    | right _ ih => simpa using ih
  · rw [hout Stream.stderr]
    clear hmap hlen hout hseqlen
    induction hint with
    | nil => rfl
    | left _ ih => simpa using ih
    | right _ ih => simpa using ih

/-- Witness for C4: two streams writing `"1"`, `"3"` (stdout) and `"2"`
(stderr) through their buffers at addresses 0 and 1, in one concrete
interleaving: three events, stdout payloads `"1","3"`, stderr payload
`"2"`. -/
theorem c4_no_event_loss_witness :
    ((⟨0⟩ : Slice).addr < (⟨fun _ => [], 2⟩ : Store).next ∧
     (⟨1⟩ : Slice).addr < (⟨fun _ => [], 2⟩ : Store).next) ∧
    ((runWrites ⟨0⟩ ⟨1⟩ (⟨fun _ => [], 2⟩ : Store) []
        [(Stream.stdout, [49]), (Stream.stderr, [50]),
         (Stream.stdout, [51])]).2.length
        = ([[49], [51]] : List (List Byte)).length +
          ([[50]] : List (List Byte)).length ∧
     (runWrites ⟨0⟩ ⟨1⟩ (⟨fun _ => [], 2⟩ : Store) []
        [(Stream.stdout, [49]), (Stream.stderr, [50]),
         (Stream.stdout, [51])]).2.filterMap
        (fun e =>
          if e.stream = Stream.stdout then
            some ((runWrites ⟨0⟩ ⟨1⟩ (⟨fun _ => [], 2⟩ : Store) []
              [(Stream.stdout, [49]), (Stream.stderr, [50]),
               (Stream.stdout, [51])]).1.mem e.addr)
          else none) = [[49], [51]] ∧
     (runWrites ⟨0⟩ ⟨1⟩ (⟨fun _ => [], 2⟩ : Store) []
        [(Stream.stdout, [49]), (Stream.stderr, [50]),
         (Stream.stdout, [51])]).2.filterMap
        (fun e =>
          if e.stream = Stream.stderr then
            some ((runWrites ⟨0⟩ ⟨1⟩ (⟨fun _ => [], 2⟩ : Store) []
              [(Stream.stdout, [49]), (Stream.stderr, [50]),
               (Stream.stdout, [51])]).1.mem e.addr)
          else none) = [[50]]) :=
  ⟨⟨by decide, by decide⟩,
   c4_no_event_loss (⟨fun _ => [], 2⟩ : Store) ⟨0⟩ ⟨1⟩
     [(Stream.stdout, [49]), (Stream.stderr, [50]), (Stream.stdout, [51])]
     [[49], [51]] [[50]]
     (Interleaving.left (Interleaving.right (Interleaving.left
       Interleaving.nil)))
     (by decide) (by decide)⟩

/-- C2: for every Write call on the combined-stream recorder, the event
appended to the combined log holds a defensive copy of the input: after a
sequence of writes through a reused pump buffer, overwriting that buffer
once more changes no payload already stored in the log — every payload
still reads back as the value the buffer held when its write was made. -/
theorem c2_defensive_copy (st : Store) (p : Slice) (s : Stream)
    (vs : List (List Byte)) (v2 : List Byte) (h : p.addr < st.next) :
    (runWrites p p st [] (vs.map (fun v => (s, v)))).2.map
        (fun e => (e.stream,
          (((runWrites p p st [] (vs.map (fun v => (s, v)))).1).writeMem
            p v2).mem e.addr))
      = vs.map (fun v => (s, v)) := by
  obtain ⟨hmap, hinv⟩ :=
    runWrites_spec p p (vs.map (fun v => (s, v))) st [] h h (by simp)
  simp only [List.map_nil, List.nil_append] at hmap
  have hcongr : (runWrites p p st [] (vs.map (fun v => (s, v)))).2.map
      (fun e => (e.stream,
        (((runWrites p p st [] (vs.map (fun v => (s, v)))).1).writeMem
          p v2).mem e.addr))
      = (runWrites p p st [] (vs.map (fun v => (s, v)))).2.map
        (fun e => (e.stream,
          (runWrites p p st [] (vs.map (fun v => (s, v)))).1.mem e.addr)) :=
    List.map_congr_left (fun e he => by
      have hne := (hinv e he).2.1
      simp [Store.writeMem, hne])
  rw [hcongr, hmap]

/-- Witness for C2: two writes of `"1"` then `"2"` through the buffer at
address 0, followed by overwriting the buffer with `"c"`; the log still
reads `"1"`, `"2"`. -/
theorem c2_defensive_copy_witness :
    ((⟨0⟩ : Slice).addr < (⟨fun _ => [], 1⟩ : Store).next) ∧
    ((runWrites ⟨0⟩ ⟨0⟩ (⟨fun _ => [], 1⟩ : Store) []
        (([[49], [50]] : List (List Byte)).map
          (fun v => (Stream.stdout, v)))).2.map
        (fun e => (e.stream,
          (((runWrites ⟨0⟩ ⟨0⟩ (⟨fun _ => [], 1⟩ : Store) []
              (([[49], [50]] : List (List Byte)).map
                (fun v => (Stream.stdout, v)))).1).writeMem
            ⟨0⟩ [99]).mem e.addr))
      = ([[49], [50]] : List (List Byte)).map (fun v => (Stream.stdout, v))) :=
  ⟨by decide,
   c2_defensive_copy (⟨fun _ => [], 1⟩ : Store) ⟨0⟩ Stream.stdout
     [[49], [50]] [99] (by decide)⟩

/-- C9: `streamWriter.Write` is total and infallible — for every input
slice it returns the slice's full length and a nil error, so the fan-out
through `io.MultiWriter` is never aborted or short-written by the
combined-log sink. -/
theorem c9_stream_writer_total (st : Store) (out : List StreamDataRef)
    (s : Stream) (p : Slice) :
    (streamWriterWrite st out s p).2.2.1 = (st.read p).length ∧
    (streamWriterWrite st out s p).2.2.2 = none :=
  ⟨rfl, rfl⟩

/-- C3, evaluated at the failing input: for a process exiting with code 1,
`Wait` does emit the Finish record with the exit code, but the error it
returns is a karma context error, not an `ExitStatusError` — `IsExitStatus`
on it is `false` and `GetExitStatus` recovers `0`, not `1`, contradicting
the claim and the doc comment of `ExitStatusError` in error.go. -/
theorem c3_wait_returns_no_exit_status_error :
    ((ExecutionWait (.exitError 1) ["sh", "-c", "exit 1"] [] true true).1.map
        IsExitStatus = some false) ∧
    ((ExecutionWait (.exitError 1) ["sh", "-c", "exit 1"] [] true true).1.map
        GetExitStatus = some 0) ∧
    ((ExecutionWait (.exitError 1) ["sh", "-c", "exit 1"] [] true true).2
        = [WaitEvent.logged Stream.finish (bytesOfStr "exit 1")]) :=
  ⟨rfl, rfl, rfl⟩

/-- C5: the closer that flushes both line relays runs exactly once and only
after successful completion — `Wait` invokes it on the exit-status-0 path
before emitting the Finish record with exit code 0, and never invokes it
when the process exits non-zero, when the exit error carries no wait
status, or when waiting itself fails. -/
theorem c5_closer_only_on_success (args : List String)
    (combined : List StreamData) :
    (ExecutionWait .success args combined true true).2
      = [WaitEvent.closerRun,
         WaitEvent.logged Stream.finish (bytesOfStr "exit 0")] ∧
    (ExecutionWait .success args combined true true).2.count
        WaitEvent.closerRun = 1 ∧
    (∀ code : Int, WaitEvent.closerRun ∉
        (ExecutionWait (.exitError code) args combined true true).2) ∧
    (∀ msg, WaitEvent.closerRun ∉
        (ExecutionWait (.exitErrorNoStatus msg) args combined true true).2) ∧
    (∀ msg, WaitEvent.closerRun ∉
        (ExecutionWait (.waitFailure msg) args combined true true).2) := by
  refine ⟨rfl, rfl, ?_, ?_, ?_⟩
  · intro code
    simp [ExecutionWait]
  · intro msg
    simp [ExecutionWait]
  · intro msg
    simp [ExecutionWait]

/-- C6: `Run` is exactly `Start` followed by `Wait` — if `Start` returns an
error, `Run` returns that error and `Wait` is never invoked; otherwise `Run`
returns `Wait`'s result (and its trace continues `Start`'s). -/
theorem c6_run_is_start_then_wait (so : StartOutcome) (wo : WaitOutcome)
    (args : List String) (combined : List StreamData) (hl hc : Bool) :
    ExecutionRun so wo args combined hl hc =
      match (ExecutionStart so args hl).1 with
      | some e => ((some e, (ExecutionStart so args hl).2), false)
      | none =>
        (((ExecutionWait wo args combined hl hc).1,
          (ExecutionStart so args hl).2 ++
            (ExecutionWait wo args combined hl hc).2),
         true) := by
  cases so <;> rfl

/-- C10: `Output` drains and returns the captured stdout and stderr bytes
even when `Run` returned an error — provided both capture targets read to
completion, the caller receives the captured output together with `Run`'s
non-nil error rather than nil output. -/
theorem c10_output_with_error (e : GoError) (args : List String)
    (so se : List Byte) :
    ExecutionOutput (some e) args (.ok so) (.ok se) =
      (some so, some se, some e) :=
  rfl

/-- A logger that discards every record contributes nothing to the sink. -/
theorem sinkOf_discard (L : Logger) (args : List String)
    (records : List (Stream × List Byte)) (hL : ∀ a s d, L a s d = []) :
    sinkOf (some L) args records = [] := by
  simp [sinkOf, hL]

/-- C7: constructing an execution with a nil logger substitutes the no-op
logger, so the stored logger is never nil and the execution runs
identically — same result, records, combined log, captured bytes and sink
output — to one configured with any logger that discards all output. -/
theorem c7_nil_logger_noop :
    (New none).logger = some (Loggerf noopBase) ∧
    ((New none).logger).isSome = true ∧
    ∀ (L : Logger), (∀ a s d, L a s d = []) →
      ∀ args so ws1 ws2 wo,
        runExecution (New none).logger args so ws1 ws2 wo =
        runExecution (New (some L)).logger args so ws1 ws2 wo := by
  refine ⟨rfl, rfl, ?_⟩
  intro L hL args so ws1 ws2 wo
  show RunObs.mk _ (sinkOf (some (Loggerf noopBase)) args _)
      = RunObs.mk _ (sinkOf (some L) args _)
  rw [sinkOf_discard (Loggerf noopBase) args _ (fun _ _ _ => rfl),
    sinkOf_discard L args _ hL]
  rfl

/-- Witness for C7: with the command `echo 1` writing one stdout line and
exiting successfully, the run constructed with a nil logger equals the run
with an explicit discarding logger. -/
theorem c7_nil_logger_noop_witness :
    (∀ a s d, (fun (_ : List String) (_ : Stream) (_ : List Byte) =>
        ([] : List String)) a s d = []) ∧
    runExecution (New none).logger ["echo", "1"] .ok [[49, 10]] [] .success =
      runExecution (New (some (fun _ _ _ => []))).logger ["echo", "1"] .ok
        [[49, 10]] [] .success :=
  ⟨fun _ _ _ => rfl,
   c7_nil_logger_noop.2.2 (fun _ _ _ => []) (fun _ _ _ => rfl)
     ["echo", "1"] .ok [[49, 10]] [] .success⟩

/-- Per-character agreement of the quoting condition of format.go with the
claim's description. -/
theorem reSpecialCharsMatch_iff (c : Char) :
    reSpecialCharsMatch c = true ↔
      (c.toNat ∈ ([9, 10, 12, 13, 32] : List Nat) ∨
       c.toNat ∈ ([36, 96, 34, 33, 39] : List Nat)) := by
  simp [reSpecialCharsMatch]
  tauto

/-- Per-character agreement of the escape rule of format.go with the
claim's description. -/
theorem escapeChar_eq (c : Char) :
    (if reSpecialCharsEscapeMatch c then ([Char.ofNat 92, c] : List Char)
     else [c])
      = (if c.toNat ∈ ([36, 96, 34, 33] : List Nat) then [Char.ofNat 92, c]
         else [c]) := by
  have h : reSpecialCharsEscapeMatch c = true ↔
      c.toNat ∈ ([36, 96, 34, 33] : List Nat) := by
    simp [reSpecialCharsEscapeMatch]
    tauto
  by_cases hc : reSpecialCharsEscapeMatch c
  · rw [if_pos hc, if_pos (h.mp hc)]
  · rw [if_neg hc, if_neg (fun hm => hc (h.mpr hm))]

/-- C8: `FormatShellCommand` returns the arguments joined by single spaces,
where exactly the arguments containing whitespace (space, tab, newline,
form feed or carriage return, Go's regexp class backslash-s) or one of the
characters dollar, backtick, double quote, exclamation mark, single quote
are wrapped in double quotes with each occurrence of dollar, backtick,
double quote, exclamation mark prefixed by a backslash, and all other
arguments appear unchanged. -/
theorem c8_format_shell_command (command : List String) :
    FormatShellCommand command = formatShellCommandSpec command := by
  unfold FormatShellCommand formatShellCommandSpec
  congr 1
  refine List.map_congr_left (fun arg _ => ?_)
  have hcond : (arg.toList.any reSpecialCharsMatch = true) ↔
      ∃ c ∈ arg.toList,
        c.toNat ∈ ([9, 10, 12, 13, 32] : List Nat) ∨
        c.toNat ∈ ([36, 96, 34, 33, 39] : List Nat) := by
    rw [List.any_eq_true]
    exact exists_congr (fun c => and_congr_right
      (fun _ => reSpecialCharsMatch_iff c))
  have hesc : escapeSpecialChars arg = String.mk (arg.toList.flatMap
      (fun c =>
        if c.toNat ∈ ([36, 96, 34, 33] : List Nat) then [Char.ofNat 92, c]
        else [c])) := by
    unfold escapeSpecialChars
    rw [show (fun c => if reSpecialCharsEscapeMatch c
        then ([Char.ofNat 92, c] : List Char) else [c])
      = (fun c => if c.toNat ∈ ([36, 96, 34, 33] : List Nat)
        then [Char.ofNat 92, c] else [c]) from funext escapeChar_eq]
  rw [hesc]
  by_cases hb : arg.toList.any reSpecialCharsMatch = true
  · rw [if_pos hb, if_pos (hcond.mp hb)]
  · rw [if_neg hb, if_neg (fun hm => hb (hcond.mpr hm))]

end Lexec
